import Mathlib

/-!
Verification of `src/lib/optional/__ngc_factory__/__ngc_initializer__.h`.

The header implements named-member initialization: a variadic argument
sequence mixes compile-time string markers (member names) with constructor
arguments.  For each declared member, `arguments_range` scans the sequence
(processing the reversed type pack) for the member's name and for the next
string after it; `front_step` / `rotate_step` / `back_step` then discard and
rotate arguments so that exactly the slots strictly between the two positions
reach `__ngc_construct__`; `member_iterator` drives this over all members in
declaration order, and `__ngc_initialize__` dispatches to it or to
`null_iterator` when the type has no members.

The embedding models C++ types as `CType` (a base type plus const/reference
qualification), the type-level pack as `List CType`, runtime argument packs as
`List Slot`, and construction calls as a `Construction` trace.
-/

/-- Base (unqualified) type of an argument slot: an `ngc :: string` with its
character pack, or any other type identified by an opaque tag. -/
inductive BaseTy where
  | string : List Char → BaseTy
  | other : Nat → BaseTy
deriving DecidableEq, Repr

/-- A C++ type descriptor as seen by the initializer templates: a base type
possibly qualified by `const` and/or reference. -/
structure CType where
  base : BaseTy
  isConst : Bool
  isRef : Bool
deriving DecidableEq, Repr

/-- Embedding of `clean` (lines 112-115): `std :: remove_const` after
`std :: remove_reference`, i.e. the type with both qualifications removed. -/
def clean (dtype : CType) : CType :=
  ⟨dtype.base, false, false⟩

/-- Embedding of `is_string` (lines 138-148): the partial specialization
matches exactly an unqualified `ngc :: string <chars...>`. -/
def is_string : CType → Bool
  | ⟨BaseTy.string _, false, false⟩ => true
  | _ => false

/-- The `match` member of `arguments_range :: iterator` (line 216):
`std :: is_same` on the cleaned needle and the cleaned element. -/
def nameMatch (ineedle ftype : CType) : Bool :=
  decide (clean ineedle = clean ftype)

/-- A slot is a marker slot when its cleaned type is an `ngc :: string`,
exactly the test `is_string <clean <ftype> :: ctype>` of line 217. -/
def isMarkerSlot (ftype : CType) : Bool :=
  is_string (clean ftype)

/-- The `found` chain of `arguments_range :: iterator` (lines 205-224)
projected on its own: `found = match || found (rest)`. -/
def iterFound (ineedle : CType) : List CType → Bool
  | [] => false
  | ftype :: ftypes => nameMatch ineedle ftype || iterFound ineedle ftypes

/-- The `found` member of a nested `arguments_range` instantiation
(line 226 applied at line 217): the iterator runs on the reversed pack. -/
def range_found (needle : CType) (haystack : List CType) : Bool :=
  iterFound needle haystack.reverse

/-- The four static constexpr members computed by
`arguments_range :: iterator` (lines 205-224). -/
structure ScanRes where
  found : Bool
  completed : Bool
  beg : Nat
  end_ : Nat
deriving DecidableEq, Repr

/-- Embedding of `arguments_range :: iterator` (lines 205-224), recursing on
the inverted haystack.  The base case (lines 205-212) returns all-zero; the
step (lines 214-224) sets `match` by cleaned-type equality, `string` when the
current element is a string and the needle occurs in the remaining
(nested `arguments_range`) pack, and increments `beg` / `end` while the
needle / the string after it is still unfound. -/
def iterScan (ineedle : CType) : List CType → ScanRes
  | [] => ⟨false, false, 0, 0⟩
  | ftype :: ftypes =>
    let rest := iterScan ineedle ftypes
    let mtch := nameMatch ineedle ftype
    let strg := isMarkerSlot ftype && range_found ineedle ftypes
    let fnd := mtch || rest.found
    let cmp := strg || rest.completed
    ⟨fnd, cmp, rest.beg + (if fnd then 0 else 1), rest.end_ + (if cmp then 0 else 1)⟩

/-- Embedding of `arguments_range` (lines 182-229): run the iterator on the
reversed parameter pack (`__ngc_reverse_parameter_pack__`, lines 226-228). -/
def arguments_range (needle : CType) (haystack : List CType) : ScanRes :=
  iterScan needle haystack.reverse

/-- Embedding of `back_step` (lines 231-247): drop `back` arguments from the
front of the remaining pack, then call `__ngc_construct__` with the rest.
The value returned is the argument list handed to `__ngc_construct__`.
(The C++ primary template cannot be instantiated with a positive count and an
empty pack; that case is modelled as the empty list and proved unreachable.) -/
def back_step {α : Type} : Nat → List α → List α
  | 0, arguments => arguments
  | _ + 1, [] => []
  | back + 1, _ :: arguments => back_step back arguments

/-- Embedding of `rotate_step` (lines 249-265): move the first argument to
the back of the pack, `rotate` times, then run `back_step`. -/
def rotate_step {α : Type} (back : Nat) : Nat → List α → List α
  | 0, arguments => back_step back arguments
  | _ + 1, [] => []
  | rotate + 1, argument :: arguments => rotate_step back rotate (arguments ++ [argument])

/-- Embedding of `front_step` (lines 267-283): drop `front` arguments from
the front of the pack, then run `rotate_step`. -/
def front_step {α : Type} (rotate back : Nat) : Nat → List α → List α
  | 0, arguments => rotate_step back rotate arguments
  | _ + 1, [] => []
  | front + 1, _ :: arguments => front_step rotate back front arguments

/-- A runtime argument slot: its C++ type and an opaque payload identity used
to track which concrete argument is forwarded where. -/
structure Slot where
  ty : CType
  val : Nat
deriving DecidableEq, Repr

/-- The type pack `__ngc_parameter_pack__ <atypes...>` of a runtime argument
pack. -/
def slotTypes (arguments : List Slot) : List CType :=
  arguments.map Slot.ty

/-- Embedding of `member_initializer :: parametric_initializer :: execute`
(lines 287-294): compute the range of the member name over the argument
types, then `front_step <beg + 1, end - beg - 1, sizeof...(atypes) - end>`.
The result is the argument list reaching `__ngc_construct__`. -/
def parametric_initializer (name : CType) (arguments : List Slot) : List Slot :=
  let range := arguments_range name (slotTypes arguments)
  front_step (range.end_ - range.beg - 1) (arguments.length - range.end_) (range.beg + 1) arguments

/-- One observed construction of a member: either the default
`__ngc_construct__(member)` call (lines 296-302) or the parametric call with
the forwarded argument list (lines 287-294). -/
inductive Construction where
  | defaulted : Construction
  | parametric : List Slot → Construction
deriving DecidableEq, Repr

/-- Embedding of `member_initializer :: execute` (lines 304-308):
`std :: conditional <range :: found, parametric_initializer,
default_initializer> :: type :: execute`. -/
def member_initializer (name : CType) (arguments : List Slot) : Construction :=
  let range := arguments_range name (slotTypes arguments)
  if range.found then Construction.parametric (parametric_initializer name arguments)
  else Construction.defaulted

/-- Placeholder member name used by `List.getD` for out-of-range ordinals;
`member_iterator` never reaches it. -/
def dummyName : CType :=
  ⟨BaseTy.other 0, false, false⟩

/-- Embedding of `member_iterator` (lines 311-328).  The object type is
modelled by its declaration-ordered list of member names; the result is the
trace of construction calls, in execution order, as pairs of member ordinal
and construction.  `member_iterator <index>` first recurses on `index - 1`
and then initializes member `index` (lines 321-328); `member_iterator <0>`
initializes member `0` alone (lines 313-319). -/
def member_iterator (members : List CType) (arguments : List Slot) : Nat → List (Nat × Construction)
  | 0 => [(0, member_initializer (members.getD 0 dummyName) arguments)]
  | index + 1 =>
    member_iterator members arguments index ++
      [(index + 1, member_initializer (members.getD (index + 1) dummyName) arguments)]

/-- Embedding of `null_iterator` (lines 330-335): no construction at all. -/
def null_iterator (arguments : List Slot) : List (Nat × Construction) :=
  []

/-- Embedding of `__ngc_initialize__` (lines 338-341): dispatch on
`__ngc_member_count__ <type> :: value > 0` between
`member_iterator <count - 1>` and `null_iterator`. -/
def __ngc_initialize__ (members : List CType) (arguments : List Slot) : List (Nat × Construction) :=
  if members.length > 0 then member_iterator members arguments (members.length - 1)
  else null_iterator arguments

/-- Specification helper: scanning the original (left-to-right) order with an
accumulator recording whether the needle has been seen, decide whether some
marker slot occurs strictly after an occurrence of the needle. -/
def completedFrom (needle : CType) (seen : Bool) : List CType → Bool
  | [] => false
  | t :: rest => (seen && isMarkerSlot t) || completedFrom needle (seen || nameMatch needle t) rest

/-- Specification helper: index (from the head, in original order) of the
first marker slot occurring strictly after an occurrence of the needle, or
the length of the list when there is none. -/
def endFrom (needle : CType) (seen : Bool) : List CType → Nat
  | [] => 0
  | t :: rest =>
    if seen && isMarkerSlot t then 0
    else endFrom needle (seen || nameMatch needle t) rest + 1

/-- Unqualified `ngc :: string <chars...>` type with the given characters. -/
def tyStr (s : List Char) : CType :=
  ⟨BaseTy.string s, false, false⟩

/-- Unqualified non-string type with the given tag. -/
def tyOther (k : Nat) : CType :=
  ⟨BaseTy.other k, false, false⟩

/-- Placeholder slot used by `List.getD`; in-range accesses never yield it. -/
def dummySlot : Slot :=
  ⟨dummyName, 0⟩

/-- Concrete argument pack with a duplicated marker used to settle the
duplicate-marker behaviour: `[#a, v1, #b, v2, #a]`. -/
def dupArgs : List Slot :=
  [⟨tyStr ['a'], 0⟩, ⟨tyOther 1, 1⟩, ⟨tyStr ['b'], 2⟩, ⟨tyOther 2, 3⟩, ⟨tyStr ['a'], 4⟩]

/-- Convenient abbreviation for the predicate matching the needle. -/
def matchPred (needle : CType) : CType → Bool :=
  fun t => nameMatch needle t

example :
    arguments_range ⟨BaseTy.string ['a'], false, false⟩ [] = ⟨false, false, 0, 0⟩ := by
  decide

example :
    (arguments_range ⟨BaseTy.string ['a'], false, false⟩
      [⟨BaseTy.string ['a'], false, false⟩]).beg = 0 ∧
    (arguments_range ⟨BaseTy.string ['a'], false, false⟩
      [⟨BaseTy.string ['a'], false, false⟩]).end_ = 1 := by
  decide

example :
    (arguments_range ⟨BaseTy.string ['a'], false, false⟩
      [⟨BaseTy.other 1, false, false⟩, ⟨BaseTy.string ['a'], false, false⟩,
       ⟨BaseTy.other 1, false, false⟩, ⟨BaseTy.string ['b'], false, false⟩,
       ⟨BaseTy.other 2, false, false⟩, ⟨BaseTy.other 3, false, false⟩,
       ⟨BaseTy.other 4, false, false⟩]).beg = 1 ∧
    (arguments_range ⟨BaseTy.string ['a'], false, false⟩
      [⟨BaseTy.other 1, false, false⟩, ⟨BaseTy.string ['a'], false, false⟩,
       ⟨BaseTy.other 1, false, false⟩, ⟨BaseTy.string ['b'], false, false⟩,
       ⟨BaseTy.other 2, false, false⟩, ⟨BaseTy.other 3, false, false⟩,
       ⟨BaseTy.other 4, false, false⟩]).end_ = 3 := by
  decide

/-! ### Characterization of the scanner -/

theorem iterFound_eq_any (n : CType) (l : List CType) :
    iterFound n l = l.any (matchPred n) := by
  induction l with
  | nil => rfl
  | cons t rest ih => simp [iterFound, List.any_cons, ih, matchPred]

theorem range_found_eq_any (n : CType) (h : List CType) :
    range_found n h = h.any (matchPred n) := by
  rw [range_found, iterFound_eq_any, List.any_reverse]

theorem iterScan_found (n : CType) (l : List CType) :
    (iterScan n l).found = iterFound n l := by
  induction l with
  | nil => rfl
  | cons t rest ih => simp only [iterScan, iterFound, ih]

theorem iterScan_found_eq_any (n : CType) (l : List CType) :
    (iterScan n l).found = l.any (matchPred n) := by
  rw [iterScan_found, iterFound_eq_any]

theorem iterScan_beg (n : CType) (l : List CType) :
    (iterScan n l).beg = l.reverse.findIdx (matchPred n) := by
  induction l with
  | nil => rfl
  | cons t rest ih =>
    have hstep : (iterScan n (t :: rest)).beg =
        (iterScan n rest).beg +
          (if (nameMatch n t || (iterScan n rest).found) = true then 0 else 1) := rfl
    rw [hstep, List.reverse_cons, List.findIdx_append, ih, iterScan_found_eq_any]
    by_cases hany : rest.any (matchPred n) = true
    · have hex : ∃ x ∈ rest.reverse, matchPred n x := by
        simp only [List.any_eq_true] at hany
        obtain ⟨x, hx, hpx⟩ := hany
        exact ⟨x, List.mem_reverse.mpr hx, hpx⟩
      have hlt : List.findIdx (matchPred n) rest.reverse < rest.length := by
        have h3 := List.findIdx_lt_length_of_exists hex
        simpa using h3
      simp [hlt, hany]
    · have hne : rest.any (matchPred n) = false := by
        simpa using hany
      have hlen : List.findIdx (matchPred n) rest.reverse = rest.length := by
        have : List.findIdx (matchPred n) rest.reverse = rest.reverse.length := by
          apply List.findIdx_eq_length_of_false
          intro x hx
          have hx' : x ∈ rest := List.mem_reverse.mp hx
          have h4 := List.any_eq_false.mp hne
          simpa [matchPred] using h4 x hx'
        simpa using this
      rw [hlen]
      simp only [Nat.lt_irrefl, if_false, hne, Bool.or_false]
      rw [List.findIdx_cons]
      simp only [List.findIdx_nil]
      cases hm : nameMatch n t <;>
        simp [hm, matchPred, Nat.add_comm]

theorem bool_shuffle (a b c d e g : Bool) :
    ((a && c) || (d || (((a || b) || e) && g))) =
      (((a && c) || d) || ((a || (b || e)) && g)) := by
  cases a <;> cases b <;> cases c <;> cases d <;> cases e <;> cases g <;> rfl

theorem completedFrom_append (n : CType) (h : List CType) (f : CType) :
    ∀ seen, completedFrom n seen (h ++ [f]) =
      (completedFrom n seen h || ((seen || h.any (matchPred n)) && isMarkerSlot f)) := by
  induction h with
  | nil =>
    intro seen
    simp [completedFrom]
  | cons t rest ih =>
    intro seen
    simp only [List.cons_append, completedFrom, List.any_cons, List.append_eq]
    rw [ih]
    exact bool_shuffle seen (nameMatch n t) (isMarkerSlot t)
      (completedFrom n (seen || nameMatch n t) rest) (rest.any (matchPred n)) (isMarkerSlot f)

theorem completedFrom_false_endFrom (n : CType) :
    ∀ (h : List CType) (seen : Bool), completedFrom n seen h = false →
      endFrom n seen h = h.length := by
  intro h
  induction h with
  | nil => intro seen _; rfl
  | cons t rest ih =>
    intro seen hc
    simp only [completedFrom, Bool.or_eq_false_iff] at hc
    simp only [endFrom, hc.1, List.length_cons, Bool.false_eq_true, if_false]
    rw [ih _ hc.2]

theorem endFrom_append (n : CType) (h : List CType) (f : CType) :
    ∀ seen, endFrom n seen (h ++ [f]) =
      if completedFrom n seen h then endFrom n seen h
      else (if (seen || h.any (matchPred n)) && isMarkerSlot f then h.length
            else h.length + 1) := by
  induction h with
  | nil =>
    intro seen
    simp [endFrom, completedFrom]
  | cons t rest ih =>
    intro seen
    cases hst : (seen && isMarkerSlot t) with
    | true =>
      have h1 : endFrom n seen ((t :: rest) ++ [f]) = 0 := by
        simp [endFrom, hst]
      have h2 : completedFrom n seen (t :: rest) = true := by
        simp [completedFrom, hst]
      have h3 : endFrom n seen (t :: rest) = 0 := by
        simp [endFrom, hst]
      rw [h1, h2, h3, if_pos rfl]
    | false =>
      have h1 : endFrom n seen ((t :: rest) ++ [f]) =
          endFrom n (seen || nameMatch n t) (rest ++ [f]) + 1 := by
        simp [endFrom, hst]
      have h2 : completedFrom n seen (t :: rest) =
          completedFrom n (seen || nameMatch n t) rest := by
        simp [completedFrom, hst]
      have h3 : endFrom n seen (t :: rest) =
          endFrom n (seen || nameMatch n t) rest + 1 := by
        simp [endFrom, hst]
      rw [h1, h2, h3, ih]
      cases hcf : completedFrom n (seen || nameMatch n t) rest with
      | true => simp [hcf]
      | false =>
        simp only [hcf, Bool.false_eq_true, if_false]
        have hb : ((seen || nameMatch n t) || rest.any (matchPred n)) =
            (seen || ((t :: rest).any (matchPred n))) := by
          simp only [List.any_cons, matchPred, Bool.or_assoc]
        cases hc2 : ((seen || nameMatch n t) || rest.any (matchPred n)) with
        | true =>
          rw [← hb, hc2]
          cases hmf : isMarkerSlot f <;> simp [List.length_cons]
        | false =>
          rw [← hb, hc2]
          simp [List.length_cons]

theorem iterScan_completed_end (n : CType) (l : List CType) :
    (iterScan n l).completed = completedFrom n false l.reverse ∧
    (iterScan n l).end_ = endFrom n false l.reverse := by
  induction l with
  | nil => exact ⟨rfl, rfl⟩
  | cons t rest ih =>
    obtain ⟨ihc, ihe⟩ := ih
    have hstepc : (iterScan n (t :: rest)).completed =
        ((isMarkerSlot t && range_found n rest) || (iterScan n rest).completed) := rfl
    have hstepe : (iterScan n (t :: rest)).end_ =
        (iterScan n rest).end_ +
          (if ((isMarkerSlot t && range_found n rest) ||
              (iterScan n rest).completed) = true then 0 else 1) := rfl
    have hrf : range_found n rest = rest.reverse.any (matchPred n) := by
      rw [range_found_eq_any, List.any_reverse]
    constructor
    · rw [hstepc, List.reverse_cons, completedFrom_append, ihc, hrf]
      cases hm : isMarkerSlot t <;> cases rest.reverse.any (matchPred n) <;>
        cases completedFrom n false rest.reverse <;> simp
    · rw [hstepe, List.reverse_cons, endFrom_append, ihc, ihe, hrf]
      cases hcf : completedFrom n false rest.reverse with
      | true => simp [hcf]
      | false =>
        have hel : endFrom n false rest.reverse = rest.reverse.length :=
          completedFrom_false_endFrom n rest.reverse false hcf
        cases ha : rest.reverse.any (matchPred n) <;> cases hm : isMarkerSlot t <;>
          simp [hel]

theorem arguments_range_found (n : CType) (h : List CType) :
    (arguments_range n h).found = h.any (matchPred n) := by
  rw [arguments_range, iterScan_found_eq_any, List.any_reverse]

theorem arguments_range_beg (n : CType) (h : List CType) :
    (arguments_range n h).beg = h.findIdx (matchPred n) := by
  rw [arguments_range, iterScan_beg, List.reverse_reverse]

theorem arguments_range_end (n : CType) (h : List CType) :
    (arguments_range n h).end_ = endFrom n false h := by
  have := (iterScan_completed_end n h.reverse).2
  rw [arguments_range, this, List.reverse_reverse]

theorem endFrom_le_length (n : CType) :
    ∀ (h : List CType) (seen : Bool), endFrom n seen h ≤ h.length := by
  intro h
  induction h with
  | nil => intro seen; exact Nat.le_refl 0
  | cons t rest ih =>
    intro seen
    cases hst : (seen && isMarkerSlot t) with
    | true => simp [endFrom, hst]
    | false =>
      simp only [endFrom, hst, Bool.false_eq_true, if_false, List.length_cons]
      exact Nat.succ_le_succ (ih _)

theorem endFrom_lt_no_completion (n : CType) :
    ∀ (h : List CType) (seen : Bool) (j : Nat) (hj : j < h.length),
      j < endFrom n seen h →
      ((seen || (h.take j).any (matchPred n)) && isMarkerSlot (h.get ⟨j, hj⟩)) = false := by
  intro h
  induction h with
  | nil => intro seen j hj; exact absurd hj (Nat.not_lt_zero j)
  | cons t rest ih =>
    intro seen j hj hlt
    cases hst : (seen && isMarkerSlot t) with
    | true =>
      rw [endFrom, if_pos hst] at hlt
      exact absurd hlt (Nat.not_lt_zero j)
    | false =>
      rw [endFrom, if_neg (by simp [hst])] at hlt
      cases j with
      | zero =>
        simpa [matchPred] using hst
      | succ j =>
        have hj' : j < rest.length := Nat.lt_of_succ_lt_succ hj
        have hlt' : j < endFrom n (seen || nameMatch n t) rest := Nat.lt_of_succ_lt_succ hlt
        have := ih (seen || nameMatch n t) j hj' hlt'
        simpa [matchPred, Bool.or_assoc] using this

theorem endFrom_lt_completion (n : CType) :
    ∀ (h : List CType) (seen : Bool) (he : endFrom n seen h < h.length),
      ((seen || (h.take (endFrom n seen h)).any (matchPred n)) &&
        isMarkerSlot (h.get ⟨endFrom n seen h, he⟩)) = true := by
  intro h
  induction h with
  | nil => intro seen he; exact absurd he (Nat.not_lt_zero 0)
  | cons t rest ih =>
    intro seen he
    cases hst : (seen && isMarkerSlot t) with
    | true =>
      have h0 : endFrom n seen (t :: rest) = 0 := by simp [endFrom, hst]
      revert he
      rw [h0]
      intro he
      simpa [matchPred] using hst
    | false =>
      have h1 : endFrom n seen (t :: rest) =
          endFrom n (seen || nameMatch n t) rest + 1 := by
        simp [endFrom, hst]
      revert he
      rw [h1]
      intro he
      have he' : endFrom n (seen || nameMatch n t) rest < rest.length :=
        Nat.lt_of_succ_lt_succ he
      have := ih (seen || nameMatch n t) he'
      simpa [matchPred, Bool.or_assoc] using this

theorem any_take_eq {α : Type} (p : α → Bool) :
    ∀ (h : List α) (j : Nat),
      (h.take j).any p = (decide (h.findIdx p < j) && h.any p) := by
  intro h
  induction h with
  | nil => intro j; simp
  | cons t rest ih =>
    intro j
    cases j with
    | zero => simp
    | succ j =>
      rw [List.take_succ_cons, List.any_cons, List.any_cons, List.findIdx_cons]
      cases hp : p t with
      | true => simp [hp]
      | false =>
        simp only [hp, cond_false, ih j, Bool.false_or]
        simp [Nat.succ_lt_succ_iff]

theorem getD_of_lt {α : Type} (l : List α) (d : α) (n : Nat) (h : n < l.length) :
    l.getD n d = l.get ⟨n, h⟩ := by
  simp [List.getD_eq_getElem?_getD, List.getElem?_eq_getElem h]

theorem arguments_range_found_iff (n : CType) (h : List CType) :
    (arguments_range n h).found = true ↔ ∃ t ∈ h, clean n = clean t := by
  rw [arguments_range_found, List.any_eq_true]
  simp only [matchPred, nameMatch, decide_eq_true_eq]

theorem completedFrom_false_of_not_any (n : CType) :
    ∀ (h : List CType) (seen : Bool), (seen || h.any (matchPred n)) = false →
      completedFrom n seen h = false := by
  intro h
  induction h with
  | nil => intro seen _; rfl
  | cons t rest ih =>
    intro seen hs
    simp only [List.any_cons, Bool.or_eq_false_iff] at hs
    obtain ⟨hseen, hpt, hrest⟩ := hs
    have hm : nameMatch n t = false := hpt
    simp only [completedFrom, hseen, hm, Bool.false_and, Bool.false_or, Bool.or_false]
    exact ih false (by simpa using hrest)

theorem arguments_range_notfound (n : CType) (h : List CType)
    (hnf : (arguments_range n h).found = false) :
    (arguments_range n h).beg = h.length ∧ (arguments_range n h).end_ = h.length := by
  have hany : h.any (matchPred n) = false := by
    rw [← arguments_range_found]; exact hnf
  constructor
  · rw [arguments_range_beg]
    apply List.findIdx_eq_length_of_false
    exact fun x hx => by simpa using (List.any_eq_false.mp hany) x hx
  · rw [arguments_range_end]
    apply completedFrom_false_endFrom
    exact completedFrom_false_of_not_any n h false (by simpa using hany)

theorem arguments_range_end_le (n : CType) (h : List CType) :
    (arguments_range n h).end_ ≤ h.length := by
  rw [arguments_range_end]
  exact endFrom_le_length n h false

theorem arguments_range_beg_le (n : CType) (h : List CType) :
    (arguments_range n h).beg ≤ h.length := by
  rw [arguments_range_beg]
  exact List.findIdx_le_length (matchPred n)

theorem arguments_range_beg_lt_of_found (n : CType) (h : List CType)
    (hf : (arguments_range n h).found = true) :
    (arguments_range n h).beg < h.length := by
  rw [arguments_range_beg]
  rw [arguments_range_found] at hf
  exact List.findIdx_lt_length_of_exists (List.any_eq_true.mp hf)

theorem arguments_range_no_marker_between (n : CType) (h : List CType) :
    ∀ j, (arguments_range n h).beg < j → j < (arguments_range n h).end_ →
      ∀ hj : j < h.length, isMarkerSlot (h.getD j dummyName) = false := by
  intro j h1 h2 hj
  rw [arguments_range_beg] at h1
  rw [arguments_range_end] at h2
  have hc := endFrom_lt_no_completion n h false j hj h2
  rw [Bool.false_or] at hc
  have hany : h.any (matchPred n) = true := by
    have hlt : h.findIdx (matchPred n) < h.length := Nat.lt_trans h1 hj
    obtain ⟨x, hx, hp⟩ := List.findIdx_lt_length.mp hlt
    exact List.any_eq_true.mpr ⟨x, hx, hp⟩
  have htake : (h.take j).any (matchPred n) = true := by
    rw [any_take_eq]
    simp [h1, hany]
  rw [htake, Bool.true_and] at hc
  rw [getD_of_lt h dummyName j hj]
  exact hc

theorem arguments_range_end_marker (n : CType) (h : List CType)
    (he : (arguments_range n h).end_ < h.length) :
    (arguments_range n h).beg < (arguments_range n h).end_ ∧
      isMarkerSlot (h.getD (arguments_range n h).end_ dummyName) = true := by
  have hee : (arguments_range n h).end_ = endFrom n false h := arguments_range_end n h
  have he' : endFrom n false h < h.length := by rw [← hee]; exact he
  have hc := endFrom_lt_completion n h false he'
  rw [Bool.false_or] at hc
  obtain ⟨h1, h2⟩ := Bool.and_eq_true_iff.mp hc
  constructor
  · rw [arguments_range_beg, hee]
    rw [any_take_eq] at h1
    exact of_decide_eq_true (Bool.and_eq_true_iff.mp h1).1
  · rw [hee, getD_of_lt h dummyName _ he']
    exact h2

theorem arguments_range_beg_lt_end_of_found (n : CType) (h : List CType)
    (hf : (arguments_range n h).found = true) :
    (arguments_range n h).beg < (arguments_range n h).end_ := by
  by_cases he : (arguments_range n h).end_ < h.length
  · exact (arguments_range_end_marker n h he).1
  · have hel : (arguments_range n h).end_ = h.length :=
      Nat.le_antisymm (arguments_range_end_le n h) (Nat.le_of_not_lt he)
    rw [hel]
    exact arguments_range_beg_lt_of_found n h hf

theorem arguments_range_beg_le_end (n : CType) (h : List CType) :
    (arguments_range n h).beg ≤ (arguments_range n h).end_ := by
  cases hf : (arguments_range n h).found with
  | true => exact Nat.le_of_lt (arguments_range_beg_lt_end_of_found n h hf)
  | false =>
    obtain ⟨hb, he⟩ := arguments_range_notfound n h hf
    rw [hb, he]

/-! ### Characterization of the slicer -/

theorem drop_append_le {α : Type} :
    ∀ (l₁ : List α) (n : Nat) (l₂ : List α), n ≤ l₁.length →
      (l₁ ++ l₂).drop n = l₁.drop n ++ l₂ := by
  intro l₁
  induction l₁ with
  | nil =>
    intro n l₂ hn
    have : n = 0 := Nat.le_zero.mp hn
    simp [this]
  | cons a rest ih =>
    intro n l₂ hn
    cases n with
    | zero => simp
    | succ m =>
      simp only [List.cons_append, List.drop_succ_cons]
      exact ih m l₂ (Nat.le_of_succ_le_succ hn)

theorem take_append_le {α : Type} :
    ∀ (l₁ : List α) (n : Nat) (l₂ : List α), n ≤ l₁.length →
      (l₁ ++ l₂).take n = l₁.take n := by
  intro l₁
  induction l₁ with
  | nil =>
    intro n l₂ hn
    have : n = 0 := Nat.le_zero.mp hn
    simp [this]
  | cons a rest ih =>
    intro n l₂ hn
    cases n with
    | zero => simp
    | succ m =>
      simp only [List.cons_append, List.take_succ_cons]
      rw [ih m l₂ (Nat.le_of_succ_le_succ hn)]

theorem back_step_eq_drop {α : Type} :
    ∀ (back : Nat) (args : List α), back_step back args = args.drop back := by
  intro back
  induction back with
  | zero => intro args; rfl
  | succ b ih =>
    intro args
    cases args with
    | nil => simp [back_step]
    | cons a rest => simp [back_step, ih]

theorem rotate_step_eq {α : Type} (back : Nat) :
    ∀ (rotate : Nat) (args : List α), rotate ≤ args.length →
      rotate_step back rotate args =
        back_step back (args.drop rotate ++ args.take rotate) := by
  intro rotate
  induction rotate with
  | zero => intro args _; simp [rotate_step]
  | succ r ih =>
    intro args hle
    cases args with
    | nil => simp at hle
    | cons a rest =>
      have hr : r ≤ rest.length := Nat.le_of_succ_le_succ hle
      have hstep : rotate_step back (r + 1) (a :: rest) =
          rotate_step back r (rest ++ [a]) := rfl
      rw [hstep, ih (rest ++ [a]) (by simp; omega)]
      rw [drop_append_le rest r [a] hr, take_append_le rest r [a] hr]
      simp only [List.drop_succ_cons, List.take_succ_cons, List.append_assoc,
        List.cons_append, List.nil_append]

theorem front_step_eq {α : Type} (rotate back : Nat) :
    ∀ (front : Nat) (args : List α),
      front_step rotate back front args = rotate_step back rotate (args.drop front) := by
  intro front
  induction front with
  | zero => intro args; rfl
  | succ f ih =>
    intro args
    cases args with
    | nil =>
      cases rotate with
      | zero =>
        simp [front_step, rotate_step, back_step_eq_drop]
      | succ r => simp [front_step, rotate_step]
    | cons a rest =>
      simp only [front_step, List.drop_succ_cons]
      exact ih rest

theorem slicer_eq {α : Type} (args : List α) (B E : Nat) (h1 : B < E) (h2 : E ≤ args.length) :
    front_step (E - B - 1) (args.length - E) (B + 1) args =
      (args.drop (B + 1)).take (E - B - 1) := by
  have hrot : E - B - 1 ≤ (args.drop (B + 1)).length := by
    rw [List.length_drop]
    omega
  rw [front_step_eq, rotate_step_eq _ _ _ hrot, back_step_eq_drop]
  have hxlen : ((args.drop (B + 1)).drop (E - B - 1)).length = args.length - E := by
    rw [List.length_drop, List.length_drop]
    omega
  exact List.drop_left' hxlen

theorem parametric_initializer_eq (name : CType) (args : List Slot)
    (hf : (arguments_range name (slotTypes args)).found = true) :
    parametric_initializer name args =
      (args.drop ((arguments_range name (slotTypes args)).beg + 1)).take
        ((arguments_range name (slotTypes args)).end_ -
          (arguments_range name (slotTypes args)).beg - 1) := by
  have hlen : (slotTypes args).length = args.length := List.length_map args Slot.ty
  have hble : (arguments_range name (slotTypes args)).beg <
      (arguments_range name (slotTypes args)).end_ :=
    arguments_range_beg_lt_end_of_found name (slotTypes args) hf
  have hele : (arguments_range name (slotTypes args)).end_ ≤ args.length := by
    have h2 := arguments_range_end_le name (slotTypes args)
    omega
  rw [parametric_initializer]
  exact slicer_eq args (arguments_range name (slotTypes args)).beg
    (arguments_range name (slotTypes args)).end_ hble hele

/-! ### Characterization of the orchestrator -/

theorem member_iterator_eq (members : List CType) (args : List Slot) :
    ∀ k, member_iterator members args k =
      (List.range (k + 1)).map
        (fun i => (i, member_initializer (members.getD i dummyName) args)) := by
  intro k
  induction k with
  | zero => simp [member_iterator, List.range_succ]
  | succ k ih =>
    rw [member_iterator, ih]
    rw [List.range_succ, List.map_append]
    simp [List.range_succ]

/-! ### Invariance under const and reference qualification -/

theorem iterFound_clean_inv (n₁ n₂ : CType) (hn : clean n₁ = clean n₂) :
    ∀ (l₁ l₂ : List CType), l₁.map clean = l₂.map clean →
      iterFound n₁ l₁ = iterFound n₂ l₂ := by
  intro l₁
  induction l₁ with
  | nil =>
    intro l₂ h
    cases l₂ with
    | nil => rfl
    | cons a b => simp at h
  | cons t rest ih =>
    intro l₂ h
    cases l₂ with
    | nil => simp at h
    | cons t₂ rest₂ =>
      simp only [List.map_cons, List.cons.injEq] at h
      simp only [iterFound, nameMatch, hn, h.1, ih rest₂ h.2]

theorem iterScan_clean_inv (n₁ n₂ : CType) (hn : clean n₁ = clean n₂) :
    ∀ (l₁ l₂ : List CType), l₁.map clean = l₂.map clean →
      iterScan n₁ l₁ = iterScan n₂ l₂ := by
  intro l₁
  induction l₁ with
  | nil =>
    intro l₂ h
    cases l₂ with
    | nil => rfl
    | cons a b => simp at h
  | cons t rest ih =>
    intro l₂ h
    cases l₂ with
    | nil => simp at h
    | cons t₂ rest₂ =>
      simp only [List.map_cons, List.cons.injEq] at h
      have hrev : rest.reverse.map clean = rest₂.reverse.map clean := by
        rw [List.map_reverse, List.map_reverse, h.2]
      have hfound : range_found n₁ rest = range_found n₂ rest₂ := by
        rw [range_found, range_found]
        exact iterFound_clean_inv n₁ n₂ hn rest.reverse rest₂.reverse hrev
      have hrest : iterScan n₁ rest = iterScan n₂ rest₂ := ih rest₂ h.2
      have hm : nameMatch n₁ t = nameMatch n₂ t₂ := by
        simp [nameMatch, hn, h.1]
      have hmk : isMarkerSlot t = isMarkerSlot t₂ := by
        simp [isMarkerSlot, h.1]
      simp only [iterScan, hm, hmk, hfound, hrest]

/-! ### Claims -/

/-- C1: for every target marker name and argument sequence, `arguments_range`
returns `found = true` iff a slot matching the target name occurs anywhere;
`beg` is the index from the head of the first slot equal (up to cleaning) to
the target name, or the sequence length if never found; `end` is the index of
the first marker slot strictly after `beg`, or the sequence length if none
exists; the empty sequence yields `found = false`, `beg = 0`, `end = 0`. -/
theorem claim_C1_scan (needle : CType) (haystack : List CType) :
    ((arguments_range needle haystack).found = true ↔
      ∃ t ∈ haystack, clean needle = clean t) ∧
    (arguments_range needle haystack).beg = haystack.findIdx (matchPred needle) ∧
    ((arguments_range needle haystack).found = false →
      (arguments_range needle haystack).beg = haystack.length ∧
      (arguments_range needle haystack).end_ = haystack.length) ∧
    (arguments_range needle haystack).beg ≤ (arguments_range needle haystack).end_ ∧
    (arguments_range needle haystack).end_ ≤ haystack.length ∧
    (∀ j, (arguments_range needle haystack).beg < j →
      j < (arguments_range needle haystack).end_ →
      j < haystack.length → isMarkerSlot (haystack.getD j dummyName) = false) ∧
    ((arguments_range needle haystack).end_ < haystack.length →
      (arguments_range needle haystack).beg < (arguments_range needle haystack).end_ ∧
      isMarkerSlot (haystack.getD (arguments_range needle haystack).end_ dummyName) = true) ∧
    arguments_range needle ([] : List CType) = ⟨false, false, 0, 0⟩ := by
  refine ⟨arguments_range_found_iff needle haystack,
    arguments_range_beg needle haystack,
    arguments_range_notfound needle haystack,
    arguments_range_beg_le_end needle haystack,
    arguments_range_end_le needle haystack,
    ?_,
    arguments_range_end_marker needle haystack,
    rfl⟩
  intro j h1 h2 hj
  exact arguments_range_no_marker_between needle haystack j h1 h2 hj

/-- Witness for C1: the scan of `[v, #a, v, #b, v, v, v]` for `#a` has
`beg = 1`, and position 2 (strictly between `beg` and `end`) is not a marker;
both facts come out of `claim_C1_scan` applied at this concrete input. -/
theorem claim_C1_scan_witness :
    (arguments_range (tyStr ['a'])
      [tyOther 1, tyStr ['a'], tyOther 2, tyStr ['b'], tyOther 3]).beg = 1 ∧
    isMarkerSlot
      (([tyOther 1, tyStr ['a'], tyOther 2, tyStr ['b'], tyOther 3]).getD 2 dummyName) =
      false := by
  have h := claim_C1_scan (tyStr ['a'])
    [tyOther 1, tyStr ['a'], tyOther 2, tyStr ['b'], tyOther 3]
  constructor
  · rw [h.2.1]
    decide
  · exact h.2.2.2.2.2.1 2 (by decide) (by decide) (by decide)

/-- C7: for every target name and sequence of length `L`, the scan satisfies
`beg ≤ end ≤ L`; when `found = true` additionally `beg < end`, and the three
slicer counts `beg + 1`, `end - beg - 1` and `L - end` sum to `L`, so the
malformed-bundle arithmetic is unreachable. -/
theorem claim_C7_bounds (needle : CType) (haystack : List CType) :
    (arguments_range needle haystack).beg ≤ (arguments_range needle haystack).end_ ∧
    (arguments_range needle haystack).end_ ≤ haystack.length ∧
    ((arguments_range needle haystack).found = true →
      (arguments_range needle haystack).beg < (arguments_range needle haystack).end_) ∧
    ((arguments_range needle haystack).found = true →
      ((arguments_range needle haystack).beg + 1) +
        ((arguments_range needle haystack).end_ -
          (arguments_range needle haystack).beg - 1) +
        (haystack.length - (arguments_range needle haystack).end_) =
        haystack.length) := by
  refine ⟨arguments_range_beg_le_end needle haystack,
    arguments_range_end_le needle haystack,
    arguments_range_beg_lt_end_of_found needle haystack,
    ?_⟩
  intro hf
  have h1 := arguments_range_beg_lt_end_of_found needle haystack hf
  have h2 := arguments_range_end_le needle haystack
  omega

/-- Witness for C7: at the concrete scan of `[v, #a, v, #b]` for `#a`
(found, `beg = 1`, `end = 3`, `L = 4`) the three counts sum to the length. -/
theorem claim_C7_bounds_witness :
    ((arguments_range (tyStr ['a'])
        [tyOther 1, tyStr ['a'], tyOther 2, tyStr ['b']]).beg + 1) +
      ((arguments_range (tyStr ['a'])
        [tyOther 1, tyStr ['a'], tyOther 2, tyStr ['b']]).end_ -
        (arguments_range (tyStr ['a'])
          [tyOther 1, tyStr ['a'], tyOther 2, tyStr ['b']]).beg - 1) +
      (([tyOther 1, tyStr ['a'], tyOther 2, tyStr ['b']] : List CType).length -
        (arguments_range (tyStr ['a'])
          [tyOther 1, tyStr ['a'], tyOther 2, tyStr ['b']]).end_) = 4 :=
  (claim_C7_bounds (tyStr ['a'])
    [tyOther 1, tyStr ['a'], tyOther 2, tyStr ['b']]).2.2.2 (by decide)

/-- C2: when a member's marker is found, the argument list passed to its
parametric construction is exactly the slots of the original sequence at
positions strictly between `beg` and `end`, in original order: it equals
`(args.drop (beg + 1)).take (end - beg - 1)`, has length `end - beg - 1`,
and its `i`-th slot is the original slot at position `beg + 1 + i`. -/
theorem claim_C2_bundle (name : CType) (args : List Slot)
    (hf : (arguments_range name (slotTypes args)).found = true) :
    parametric_initializer name args =
      (args.drop ((arguments_range name (slotTypes args)).beg + 1)).take
        ((arguments_range name (slotTypes args)).end_ -
          (arguments_range name (slotTypes args)).beg - 1) ∧
    (parametric_initializer name args).length =
      (arguments_range name (slotTypes args)).end_ -
        (arguments_range name (slotTypes args)).beg - 1 ∧
    (∀ i, i < (arguments_range name (slotTypes args)).end_ -
        (arguments_range name (slotTypes args)).beg - 1 →
      (parametric_initializer name args).getD i dummySlot =
        args.getD ((arguments_range name (slotTypes args)).beg + 1 + i) dummySlot) := by
  have hlen : (slotTypes args).length = args.length := List.length_map args Slot.ty
  have hble : (arguments_range name (slotTypes args)).beg <
      (arguments_range name (slotTypes args)).end_ :=
    arguments_range_beg_lt_end_of_found name (slotTypes args) hf
  have hele : (arguments_range name (slotTypes args)).end_ ≤ args.length := by
    have h2 := arguments_range_end_le name (slotTypes args)
    omega
  have heq := parametric_initializer_eq name args hf
  have hlength : (parametric_initializer name args).length =
      (arguments_range name (slotTypes args)).end_ -
        (arguments_range name (slotTypes args)).beg - 1 := by
    rw [heq, List.length_take, List.length_drop]
    omega
  refine ⟨heq, hlength, ?_⟩
  intro i hi
  have hpos : (arguments_range name (slotTypes args)).beg + 1 + i < args.length := by
    omega
  have hibundle : i < (parametric_initializer name args).length := by
    omega
  rw [getD_of_lt _ _ _ hibundle, getD_of_lt _ _ _ hpos]
  simp only [List.get_eq_getElem]
  rw [List.getElem_of_eq heq hibundle]
  rw [List.getElem_take, List.getElem_drop]

/-- Witness for C2: for `args = [#a, v1, v2, #b, v3]` and name `#a`
(`beg = 0`, `end = 3`), the bundle is `[v1, v2]` and its slot 0 is the
original slot at position 1; obtained by applying `claim_C2_bundle` at this
concrete input. -/
theorem claim_C2_bundle_witness :
    parametric_initializer (tyStr ['a'])
      [⟨tyStr ['a'], 0⟩, ⟨tyOther 1, 1⟩, ⟨tyOther 2, 2⟩, ⟨tyStr ['b'], 3⟩, ⟨tyOther 3, 4⟩] =
      List.take 2 (List.drop 1
        ([⟨tyStr ['a'], 0⟩, ⟨tyOther 1, 1⟩, ⟨tyOther 2, 2⟩, ⟨tyStr ['b'], 3⟩,
          ⟨tyOther 3, 4⟩] : List Slot)) ∧
    (parametric_initializer (tyStr ['a'])
      [⟨tyStr ['a'], 0⟩, ⟨tyOther 1, 1⟩, ⟨tyOther 2, 2⟩, ⟨tyStr ['b'], 3⟩,
        ⟨tyOther 3, 4⟩]).getD 0 dummySlot =
      ([⟨tyStr ['a'], 0⟩, ⟨tyOther 1, 1⟩, ⟨tyOther 2, 2⟩, ⟨tyStr ['b'], 3⟩,
        ⟨tyOther 3, 4⟩] : List Slot).getD 1 dummySlot := by
  have h := claim_C2_bundle (tyStr ['a'])
    [⟨tyStr ['a'], 0⟩, ⟨tyOther 1, 1⟩, ⟨tyOther 2, 2⟩, ⟨tyStr ['b'], 3⟩, ⟨tyOther 3, 4⟩]
    (by decide)
  constructor
  · have hb : (arguments_range (tyStr ['a'])
        (slotTypes [⟨tyStr ['a'], 0⟩, ⟨tyOther 1, 1⟩, ⟨tyOther 2, 2⟩, ⟨tyStr ['b'], 3⟩,
          ⟨tyOther 3, 4⟩])).beg = 0 := by decide
    have he : (arguments_range (tyStr ['a'])
        (slotTypes [⟨tyStr ['a'], 0⟩, ⟨tyOther 1, 1⟩, ⟨tyOther 2, 2⟩, ⟨tyStr ['b'], 3⟩,
          ⟨tyOther 3, 4⟩])).end_ = 3 := by decide
    have h1 := h.1
    rw [hb, he] at h1
    exact h1
  · have h3 := h.2.2 0 (by decide)
    have hb : (arguments_range (tyStr ['a'])
        (slotTypes [⟨tyStr ['a'], 0⟩, ⟨tyOther 1, 1⟩, ⟨tyOther 2, 2⟩, ⟨tyStr ['b'], 3⟩,
          ⟨tyOther 3, 4⟩])).beg = 0 := by decide
    rw [hb] at h3
    exact h3

/-- C4: for every member name and argument sequence, exactly one construction
path runs: the default construction (with no arguments) is taken iff no slot
matches the name, and the parametric construction is taken iff some slot
matches the name. -/
theorem claim_C4_dispatch (name : CType) (args : List Slot) :
    (member_initializer name args = Construction.defaulted ↔
      ¬∃ s ∈ args, clean name = clean s.ty) ∧
    ((∃ s ∈ args, clean name = clean s.ty) ↔
      ∃ b, member_initializer name args = Construction.parametric b) := by
  have hiff : (arguments_range name (slotTypes args)).found = true ↔
      ∃ s ∈ args, clean name = clean s.ty := by
    rw [arguments_range_found_iff]
    constructor
    · rintro ⟨t, ht, hc⟩
      obtain ⟨s, hs, rfl⟩ := List.mem_map.mp ht
      exact ⟨s, hs, hc⟩
    · rintro ⟨s, hs, hc⟩
      exact ⟨s.ty, List.mem_map.mpr ⟨s, hs, rfl⟩, hc⟩
  cases hfd : (arguments_range name (slotTypes args)).found with
  | true =>
    have hpar : member_initializer name args =
        Construction.parametric (parametric_initializer name args) := by
      simp [member_initializer, hfd]
    constructor
    · constructor
      · intro hd
        rw [hpar] at hd
        exact absurd hd (by simp)
      · intro hne
        exact absurd (hiff.mp hfd) hne
    · constructor
      · intro _
        exact ⟨parametric_initializer name args, hpar⟩
      · intro _
        exact hiff.mp hfd
  | false =>
    have hdef : member_initializer name args = Construction.defaulted := by
      simp [member_initializer, hfd]
    constructor
    · constructor
      · intro _ hex
        have h2 := hiff.mpr hex
        rw [h2] at hfd
        simp at hfd
      · intro _
        exact hdef
    · constructor
      · intro hex
        have h2 := hiff.mpr hex
        rw [h2] at hfd
        simp at hfd
      · rintro ⟨b, hb⟩
        rw [hdef] at hb
        exact absurd hb (by simp)

/-- Witness for C4: with no matching marker the default path runs, and with a
matching marker the parametric path runs; both obtained from
`claim_C4_dispatch` at concrete inputs. -/
theorem claim_C4_dispatch_witness :
    member_initializer (tyStr ['a']) [⟨tyOther 1, 5⟩] = Construction.defaulted ∧
    ∃ b, member_initializer (tyStr ['a']) [⟨tyStr ['a'], 0⟩, ⟨tyOther 1, 5⟩] =
      Construction.parametric b := by
  constructor
  · exact (claim_C4_dispatch (tyStr ['a']) [⟨tyOther 1, 5⟩]).1.mpr (by decide)
  · exact (claim_C4_dispatch (tyStr ['a'])
      [⟨tyStr ['a'], 0⟩, ⟨tyOther 1, 5⟩]).2.mp ⟨⟨tyStr ['a'], 0⟩, by decide⟩

/-- C5: a member whose marker is present but immediately followed by another
marker or by the end of the sequence is constructed through the parametric
(found) path with an empty argument bundle, not through the default path. -/
theorem claim_C5_empty_bundle (name : CType) (args : List Slot)
    (hf : (arguments_range name (slotTypes args)).found = true)
    (he : (arguments_range name (slotTypes args)).end_ =
        (arguments_range name (slotTypes args)).beg + 1 ∨
      (arguments_range name (slotTypes args)).beg + 1 = args.length) :
    member_initializer name args = Construction.parametric [] ∧
    member_initializer name args ≠ Construction.defaulted := by
  have hlen : (slotTypes args).length = args.length := List.length_map args Slot.ty
  have hble : (arguments_range name (slotTypes args)).beg <
      (arguments_range name (slotTypes args)).end_ :=
    arguments_range_beg_lt_end_of_found name (slotTypes args) hf
  have hele := arguments_range_end_le name (slotTypes args)
  have hee : (arguments_range name (slotTypes args)).end_ =
      (arguments_range name (slotTypes args)).beg + 1 := by
    cases he with
    | inl h => exact h
    | inr h => omega
  have hbundle : parametric_initializer name args = [] := by
    rw [parametric_initializer_eq name args hf, hee]
    simp
  constructor
  · simp [member_initializer, hf, hbundle]
  · simp [member_initializer, hf, hbundle]

/-- Witness for C5: `args = [#a]` yields the parametric path with an empty
bundle, via `claim_C5_empty_bundle` at this concrete input. -/
theorem claim_C5_empty_bundle_witness :
    member_initializer (tyStr ['a']) [⟨tyStr ['a'], 0⟩] = Construction.parametric [] :=
  (claim_C5_empty_bundle (tyStr ['a']) [⟨tyStr ['a'], 0⟩] (by decide)
    (Or.inl (by decide))).1

/-- C3: for every object type and argument sequence, `__ngc_initialize__`
produces the construction trace of all declared members in strictly ascending
declaration order (member 0 first), each entry computed by the member's
initializer from the same entire, unchanged original argument sequence; this
holds regardless of the order in which markers appear in the sequence. -/
theorem claim_C3_order (members : List CType) (args : List Slot) :
    __ngc_initialize__ members args =
      (List.range members.length).map
        (fun i => (i, member_initializer (members.getD i dummyName) args)) := by
  cases members with
  | nil => rfl
  | cons m rest =>
    rw [__ngc_initialize__, if_pos (by simp)]
    rw [member_iterator_eq]
    simp

/-- C8: initializing an object with zero declared members performs no
construction call at all, for every argument sequence, markers and values
included. -/
theorem claim_C8_empty_object (args : List Slot) :
    __ngc_initialize__ [] args = [] :=
  rfl

/-- C9: marker identity is decided after stripping reference and const
qualification on both operands — two string markers are clean-equal iff their
character sequences are identical — and consequently the whole scan result is
invariant under changing const/reference qualification of the needle and of
any slot of the sequence. -/
theorem claim_C9_clean_invariance :
    (∀ (s₁ s₂ : List Char) (c₁ r₁ c₂ r₂ : Bool),
      clean ⟨BaseTy.string s₁, c₁, r₁⟩ = clean ⟨BaseTy.string s₂, c₂, r₂⟩ ↔ s₁ = s₂) ∧
    (∀ (n₁ n₂ : CType) (h₁ h₂ : List CType), clean n₁ = clean n₂ →
      h₁.map clean = h₂.map clean →
      arguments_range n₁ h₁ = arguments_range n₂ h₂) := by
  constructor
  · intro s₁ s₂ c₁ r₁ c₂ r₂
    simp [clean]
  · intro n₁ n₂ h₁ h₂ hn hh
    rw [arguments_range, arguments_range]
    apply iterScan_clean_inv n₁ n₂ hn
    rw [List.map_reverse, List.map_reverse, hh]

/-- Witness for C9: a const-reference-qualified needle and a sequence with
qualified slots scan identically to their unqualified counterparts, via
`claim_C9_clean_invariance` at concrete inputs. -/
theorem claim_C9_clean_invariance_witness :
    arguments_range ⟨BaseTy.string ['a'], true, true⟩
      [⟨BaseTy.other 1, true, false⟩, ⟨BaseTy.string ['a'], false, true⟩] =
    arguments_range (tyStr ['a']) [tyOther 1, tyStr ['a']] :=
  claim_C9_clean_invariance.2 ⟨BaseTy.string ['a'], true, true⟩ (tyStr ['a'])
    [⟨BaseTy.other 1, true, false⟩, ⟨BaseTy.string ['a'], false, true⟩]
    [tyOther 1, tyStr ['a']] (by decide) (by decide)

/-- C10: every slot whose cleaned type is a compile-time string is treated as
a marker by the scanner, so no such slot is ever part of a parametric
argument bundle: whatever list the parametric path forwards to a member's
construction contains no string-typed slot. -/
theorem claim_C10_no_string_delivered (name : CType) (args : List Slot)
    (bundle : List Slot)
    (h : member_initializer name args = Construction.parametric bundle) :
    ∀ s ∈ bundle, isMarkerSlot s.ty = false := by
  have hlen : (slotTypes args).length = args.length := List.length_map args Slot.ty
  cases hfd : (arguments_range name (slotTypes args)).found with
  | false =>
    have hdef : member_initializer name args = Construction.defaulted := by
      simp [member_initializer, hfd]
    rw [hdef] at h
    exact absurd h (by simp)
  | true =>
    have hpar : member_initializer name args =
        Construction.parametric (parametric_initializer name args) := by
      simp [member_initializer, hfd]
    rw [hpar] at h
    have hb : bundle = parametric_initializer name args :=
      (Construction.parametric.injEq _ _).mp h.symm
    subst hb
    intro s hs
    have heq := parametric_initializer_eq name args hfd
    have hble : (arguments_range name (slotTypes args)).beg <
        (arguments_range name (slotTypes args)).end_ :=
      arguments_range_beg_lt_end_of_found name (slotTypes args) hfd
    have hele := arguments_range_end_le name (slotTypes args)
    rw [heq] at hs
    obtain ⟨i, hi, hig⟩ := List.mem_iff_getElem.mp hs
    have hitake : i < (arguments_range name (slotTypes args)).end_ -
        (arguments_range name (slotTypes args)).beg - 1 := by
      have := hi
      rw [List.length_take] at this
      omega
    have hipos : (arguments_range name (slotTypes args)).beg + 1 + i < args.length := by
      have := hi
      rw [List.length_take, List.length_drop] at this
      omega
    have hsg : s = args.get
        ⟨(arguments_range name (slotTypes args)).beg + 1 + i, hipos⟩ := by
      rw [List.get_eq_getElem, ← hig]
      rw [List.getElem_take, List.getElem_drop]
    have hty : s.ty = (slotTypes args).getD
        ((arguments_range name (slotTypes args)).beg + 1 + i) dummyName := by
      have hpos2 : (arguments_range name (slotTypes args)).beg + 1 + i <
          (slotTypes args).length := by omega
      rw [getD_of_lt _ _ _ hpos2]
      rw [hsg]
      simp only [List.get_eq_getElem, slotTypes, List.getElem_map]
    rw [hty]
    apply arguments_range_no_marker_between name (slotTypes args)
    · omega
    · omega
    · omega

/-- Witness for C10: at `args = [#a, v, #b]` the bundle forwarded for `#a`
is `[v]`, and `claim_C10_no_string_delivered` gives that its unique slot is
not string-typed. -/
theorem claim_C10_no_string_delivered_witness :
    isMarkerSlot (Slot.ty ⟨tyOther 1, 1⟩) = false :=
  claim_C10_no_string_delivered (tyStr ['a'])
    [⟨tyStr ['a'], 0⟩, ⟨tyOther 1, 1⟩, ⟨tyStr ['b'], 2⟩]
    [⟨tyOther 1, 1⟩] (by decide) ⟨tyOther 1, 1⟩ (by decide)

/-- Counterexample for C6: in `dupArgs = [#a, v1, #b, v2, #a]` the marker
`#a` occurs exactly at positions 0 and 4, and the scan resolves `beg` to the
first occurrence; but the second occurrence does not become `end` (the
intervening marker `#b` at position 2 does), and the bundle is `[v1]`, not
the value slots `[v1, v2]` lying between the two occurrences. -/
theorem claim_C6_counterexample :
    (clean (tyStr ['a']) = clean ((slotTypes dupArgs).getD 0 dummyName)) ∧
    (clean (tyStr ['a']) = clean ((slotTypes dupArgs).getD 4 dummyName)) ∧
    (∀ j, j < 4 → 0 < j →
      ¬(clean (tyStr ['a']) = clean ((slotTypes dupArgs).getD j dummyName))) ∧
    (arguments_range (tyStr ['a']) (slotTypes dupArgs)).beg = 0 ∧
    ¬((arguments_range (tyStr ['a']) (slotTypes dupArgs)).end_ = 4) ∧
    ¬(parametric_initializer (tyStr ['a']) dupArgs =
      [⟨tyOther 1, 1⟩, ⟨tyOther 2, 3⟩]) := by
  decide

/-- C6 amended: when the marker occurs more than once, `beg` is the first
occurrence from the head and `end` is the first marker slot strictly after
`beg` — which is the second occurrence exactly when no other marker slot lies
strictly between the two occurrences — and the bundle is the slots strictly
between `beg` and that marker. -/
theorem claim_C6_amended (name : CType) (args : List Slot) (j₂ : Nat)
    (hj₂ : j₂ < args.length)
    (hs : isMarkerSlot name = true)
    (hm : clean name = clean ((slotTypes args).getD j₂ dummyName))
    (hgt : (arguments_range name (slotTypes args)).beg < j₂)
    (hno : ∀ k, (arguments_range name (slotTypes args)).beg < k → k < j₂ →
      isMarkerSlot ((slotTypes args).getD k dummyName) = false) :
    (arguments_range name (slotTypes args)).end_ = j₂ ∧
    parametric_initializer name args =
      (args.drop ((arguments_range name (slotTypes args)).beg + 1)).take
        (j₂ - (arguments_range name (slotTypes args)).beg - 1) := by
  have hlen : (slotTypes args).length = args.length := List.length_map args Slot.ty
  have hj₂' : j₂ < (slotTypes args).length := by omega
  have hfound : (arguments_range name (slotTypes args)).found = true := by
    rw [arguments_range_found_iff]
    refine ⟨(slotTypes args).getD j₂ dummyName, ?_, hm⟩
    rw [getD_of_lt _ _ _ hj₂']
    exact List.get_mem _ _ _
  have hmk : isMarkerSlot ((slotTypes args).getD j₂ dummyName) = true := by
    rw [isMarkerSlot, ← hm]
    rw [isMarkerSlot] at hs
    exact hs
  have hge : j₂ ≤ (arguments_range name (slotTypes args)).end_ := by
    by_contra hlt
    push_neg at hlt
    have hel : (arguments_range name (slotTypes args)).end_ <
        (slotTypes args).length := by omega
    have hcm := arguments_range_end_marker name (slotTypes args) hel
    have hfalse := hno _ hcm.1 hlt
    rw [hfalse] at hcm
    simp at hcm
  have hle : (arguments_range name (slotTypes args)).end_ ≤ j₂ := by
    by_contra hlt2
    push_neg at hlt2
    have hnm := arguments_range_no_marker_between name (slotTypes args) j₂ hgt hlt2 hj₂'
    rw [hnm] at hmk
    simp at hmk
  have heq : (arguments_range name (slotTypes args)).end_ = j₂ :=
    Nat.le_antisymm hle hge
  refine ⟨heq, ?_⟩
  rw [parametric_initializer_eq name args hfound, heq]

/-- Witness for C6 amended: in `[#a, v1, #a]` the second occurrence of `#a`
(position 2) becomes `end` and the bundle is `[v1]`, via `claim_C6_amended`
at this concrete input. -/
theorem claim_C6_amended_witness :
    (arguments_range (tyStr ['a'])
      (slotTypes [⟨tyStr ['a'], 0⟩, ⟨tyOther 1, 1⟩, ⟨tyStr ['a'], 2⟩])).end_ = 2 := by
  have h := claim_C6_amended (tyStr ['a'])
    [⟨tyStr ['a'], 0⟩, ⟨tyOther 1, 1⟩, ⟨tyStr ['a'], 2⟩] 2
    (by decide) (by decide) (by decide) (by decide)
    (by
      intro k hk1 hk2
      have hb : (arguments_range (tyStr ['a'])
          (slotTypes [⟨tyStr ['a'], 0⟩, ⟨tyOther 1, 1⟩, ⟨tyStr ['a'], 2⟩])).beg = 0 := by
        decide
      rw [hb] at hk1
      have hk : k = 1 := by omega
      rw [hk]
      decide)
  exact h.1
